import Mathlib

/-!
# Verification of the color-picker preference ranking engine

Shallow embedding of the core engine (`ColorPickerCore`): the Elo-style
rating update rule, the diverse-batch selector, and the session state
machine (`EloPickerState`).  JS numbers are modelled as exact reals `ℝ`
(ratings) and naturals/rationals elsewhere; JS object references into the
candidate pool are modelled as item ids (`ℕ`), which is faithful whenever
the pool's ids are pairwise distinct (the generator produces `color_i`
with distinct indices).  `Math.random()` is modelled as an explicit
stream of rationals in `[0, 1)` together with a draw counter, and the
random shuffle of the twelve hue-group keys is modelled as an explicitly
supplied key order.
-/

namespace ColorPicker

/-- An item of the candidate pool: identity, perceptual hue (the only
display attribute the engine reads), and the mutable ranking statistics.
`eloRating` is exact-real valued; JS `hsl.h` is a non-negative integer
in `[0, 360)` for generated colors, modelled as `ℕ`. -/
structure Item where
  id : ℕ
  hue : ℕ
  eloRating : ℝ
  comparisons : ℕ
  wins : ℕ
  losses : ℕ

instance : Inhabited Item := ⟨⟨0, 0, 0, 0, 0, 0⟩⟩

/-- Session analytics counters; decision latencies in milliseconds. -/
structure Analytics where
  sessionStartTime : ℕ
  totalComparisons : ℕ
  sessionComparisons : ℕ
  passes : ℕ
  picks : ℕ
  averageDecisionTime : ℚ
  decisionTimes : List ℕ

/-- The full `EloPickerState`: candidate pool, membership sets
(`eliminated`, `favorites` hold ids, modelling JS object references),
the current batch (ids; `none` models JS `null`), analytics and the
completion flag. -/
structure State where
  maxComparisons : ℕ
  analytics : Analytics
  lastActionTime : ℕ
  colors : List Item
  eliminated : List ℕ
  favorites : List ℕ
  evaluating : Option (List ℕ)
  settings : ℕ
  sessionComplete : Bool

/-- Constructor options.  `colorCount = 0` models a falsy
(`0`/absent) JS `colorCount`, `maxComparisons = 0` a falsy
`maxComparisons`. -/
structure Options where
  generateColors : Bool
  colorCount : ℕ
  items : List Item
  maxComparisons : ℕ

/-- `options.maxComparisons || 20`. -/
def Options.cap (o : Options) : ℕ :=
  if o.maxComparisons = 0 then 20 else o.maxComparisons

/-- A serialized session snapshot (`getState` output / `restoreState`
input).  Saved per-item statistics reuse `Item` (the saved `hue` field is
ignored by restoration, matching the JS snapshot that stores only
ranking statistics). -/
structure Snapshot where
  colors : List Item
  evaluating : Option (List ℕ)
  favorites : List ℕ
  eliminated : List ℕ
  settings : ℕ
  analytics : Analytics
  sessionComplete : Bool

/-- A `Math.random()` source: a stream of rationals with the JS
guarantee `0 ≤ r < 1`. -/
structure RandSrc where
  val : ℕ → ℚ
  nonneg : ∀ i, 0 ≤ val i
  lt_one : ∀ i, val i < 1

-- ============================================
-- ELO RATING SYSTEM
-- ============================================

/-- `calculateExpectedScore(ratingA, ratingB)`:
`1 / (1 + 10^((ratingB - ratingA) / 400))`. -/
noncomputable def calculateExpectedScore (ratingA ratingB : ℝ) : ℝ :=
  1 / (1 + (10 : ℝ) ^ ((ratingB - ratingA) / 400))

/-- `updateEloRatings(winner, loser, isDraw)`.  One K-factor is computed
from the winner's prior comparison count and applied to both deltas,
exactly as in the source.  Returns the updated (winner, loser) pair. -/
noncomputable def updateEloRatings (winner loser : Item) (isDraw : Bool) :
    Item × Item :=
  let kFactor : ℝ := max 32 (64 - (winner.comparisons : ℝ) * 2)
  let expectedWin := calculateExpectedScore winner.eloRating loser.eloRating
  let expectedLose := calculateExpectedScore loser.eloRating winner.eloRating
  if isDraw then
    ({ winner with
        eloRating := winner.eloRating + kFactor * (1 / 2 - expectedWin)
        comparisons := winner.comparisons + 1 },
     { loser with
        eloRating := loser.eloRating + kFactor * (1 / 2 - expectedLose)
        comparisons := loser.comparisons + 1 })
  else
    ({ winner with
        eloRating := winner.eloRating + kFactor * (1 - expectedWin)
        wins := winner.wins + 1
        comparisons := winner.comparisons + 1 },
     { loser with
        eloRating := loser.eloRating + kFactor * (0 - expectedLose)
        losses := loser.losses + 1
        comparisons := loser.comparisons + 1 })

-- Basic facts about the expected-score model.

theorem calculateExpectedScore_self (r : ℝ) :
    calculateExpectedScore r r = 1 / 2 := by
  unfold calculateExpectedScore
  norm_num [Real.rpow_zero]

theorem tenPow_pos (x : ℝ) : 0 < (10 : ℝ) ^ x :=
  Real.rpow_pos_of_pos (by norm_num) x

theorem calculateExpectedScore_pos (a b : ℝ) :
    0 < calculateExpectedScore a b := by
  unfold calculateExpectedScore
  have h := tenPow_pos ((b - a) / 400)
  positivity

theorem calculateExpectedScore_lt_one (a b : ℝ) :
    calculateExpectedScore a b < 1 := by
  unfold calculateExpectedScore
  have h := tenPow_pos ((b - a) / 400)
  rw [div_lt_one (by linarith)]
  linarith

/-- The two sides' expected scores sum to 1. -/
theorem calculateExpectedScore_add (a b : ℝ) :
    calculateExpectedScore a b + calculateExpectedScore b a = 1 := by
  unfold calculateExpectedScore
  have hab : (a - b) / 400 = -((b - a) / 400) := by ring
  rw [hab, Real.rpow_neg (by norm_num)]
  have h := tenPow_pos ((b - a) / 400)
  field_simp
  ring

theorem kFactor_pos (c : ℕ) : (0 : ℝ) < max 32 (64 - (c : ℝ) * 2) :=
  lt_max_of_lt_left (by norm_num)

-- ============================================
-- COLOR GENERATION
-- ============================================

/-- The golden-ratio conjugate used to advance the hue. -/
def goldenRatioConjugate : ℚ := 0.618033988749895

/-- `generatePerceptuallyDistinctColors(count)`.  The JS loop starts the
hue at `Math.random()` (here the parameter `seed`) and per item performs
`hue += goldenRatioConjugate; hue %= 1`, so item `i` has hue
`fract (seed + (i+1)·conjugate)`; `hsl.h = floor(hue * 360)`.  Ids are
the generation indices (JS `color_i`).  All ranking statistics start at
`rating = 1500, comparisons = wins = losses = 0`. -/
def generatePerceptuallyDistinctColors (count : ℕ) (seed : ℚ) : List Item :=
  (List.range count).map fun i =>
    { id := i
      hue := (Int.floor (Int.fract (seed + goldenRatioConjugate * (i + 1)) * 360)).toNat
      eloRating := 1500
      comparisons := 0
      wins := 0
      losses := 0 }

@[simp] theorem length_generate (count : ℕ) (seed : ℚ) :
    (generatePerceptuallyDistinctColors count seed).length = count := by
  simp [generatePerceptuallyDistinctColors]

-- ============================================
-- DIVERSE BATCH SELECTION
-- ============================================

/-- `getHueGroup(hue) = floor(hue / 30) % 12`. -/
def getHueGroup (hue : ℕ) : ℕ := hue / 30 % 12

/-- Descending sort by rating, JS `sort((a, b) => b.eloRating - a.eloRating)`. -/
noncomputable def sortByRatingDesc (l : List Item) : List Item :=
  l.mergeSort fun a b => decide (b.eloRating ≤ a.eloRating)

/-- Ascending sort by hue, JS `sort((a, b) => a.hsl.h - b.hsl.h)`. -/
def sortByHueAsc (l : List Item) : List Item :=
  l.mergeSort fun a b => decide (a.hue ≤ b.hue)

/-- `groupByHue`: the hue-bucket `k` of a color list, internally sorted
by descending rating. -/
noncomputable def groupByHue (colors : List Item) (k : ℕ) : List Item :=
  sortByRatingDesc (colors.filter fun c => getHueGroup c.hue == k)

/-- The high-rated phase of `selectDiverseBatch`: walk the rating-sorted
tail, include each color with probability 0.7 until `hrc` colors are in
the batch, recording the hue groups of the included colors.  Returns
(batch, usedGroups, next draw index). -/
noncomputable def highRatedPhase (rng : RandSrc) (hrc : ℕ) :
    List Item → List Item → List ℕ → ℕ → List Item × List ℕ × ℕ
  | [], batch, used, n => (batch, used, n)
  | c :: rest, batch, used, n =>
    if hrc ≤ batch.length then (batch, used, n)
    else if rng.val n < 7 / 10 then
      highRatedPhase rng hrc rest (batch ++ [c]) (used ++ [getHueGroup c.hue]) (n + 1)
    else
      highRatedPhase rng hrc rest batch used (n + 1)

/-- The diversity phase of `selectDiverseBatch`: iterate the (shuffled)
hue-group keys; for each non-empty group not yet represented, include one
of its top-3-by-rating members at a random index, unless already in the
batch. -/
noncomputable def groupPhase (rng : RandSrc) (groups : ℕ → List Item) (size : ℕ) :
    List ℕ → List Item → List ℕ → ℕ → List Item × ℕ
  | [], batch, _, n => (batch, n)
  | k :: rest, batch, used, n =>
    if size ≤ batch.length then (batch, n)
    else
      let g := groups k
      if g.isEmpty then groupPhase rng groups size rest batch used n
      else if k ∈ used then groupPhase rng groups size rest batch used n
      else
        let idx := (Int.floor (rng.val n * ((min 3 g.length : ℕ) : ℚ))).toNat
        let c := g.getD idx default
        if batch.any fun b => b.id == c.id then
          groupPhase rng groups size rest batch used (n + 1)
        else
          groupPhase rng groups size rest (batch ++ [c]) (used ++ [k]) (n + 1)

/-- The fill phase of `selectDiverseBatch`: splice uniformly random
still-unselected colors out of `remaining` into the batch until the
requested size is reached or `remaining` is exhausted.  The fuel is
`remaining.length` at the call site; each step removes one element. -/
noncomputable def fillPhase (rng : RandSrc) (size : ℕ) :
    ℕ → List Item → List Item → ℕ → List Item × ℕ
  | 0, _, batch, n => (batch, n)
  | fuel + 1, remaining, batch, n =>
    if size ≤ batch.length then (batch, n)
    else if remaining.isEmpty then (batch, n)
    else
      let idx := (Int.floor (rng.val n * (remaining.length : ℚ))).toNat
      fillPhase rng size fuel (remaining.eraseIdx idx)
        (batch ++ [remaining.getD idx default]) (n + 1)

/-- `selectDiverseBatch(available, size)`.  `n` is the current draw index
of the random stream; `keys` is the randomly shuffled order of the twelve
hue-group keys (JS shuffles `Object.keys(hueGroups)` with a random
comparator; the resulting permutation is supplied explicitly here). -/
noncomputable def selectDiverseBatch (available : List Item) (size : ℕ)
    (rng : RandSrc) (n : ℕ) (keys : List ℕ) : List Item :=
  if available.length ≤ size then available
  else
    let sorted := sortByRatingDesc available
    let skipTop := rng.val n < 3 / 5
    let n1 := n + 1
    let startIndex := if skipTop then (Int.floor (rng.val n1 * 3)).toNat + 1 else 0
    let n2 := if skipTop then n1 + 1 else n1
    let highRatedCount := 2 + (Int.floor (rng.val n2 * 2)).toNat
    let n3 := n2 + 1
    let r1 := highRatedPhase rng highRatedCount (sorted.drop startIndex) [] [] n3
    let r2 := groupPhase rng (groupByHue available) size keys r1.1 r1.2.1 r1.2.2
    let remaining := available.filter fun c => !(r2.1.any fun b => b.id == c.id)
    let r3 := fillPhase rng size remaining.length remaining r2.1 r2.2
    sortByHueAsc r3.1

-- ============================================
-- SESSION STATE MACHINE
-- ============================================

/-- One `updateEloRatings(winner, loser, isDraw)` call applied to the
pool through id references: the JS code mutates the winner and loser
objects in place, which under distinct pool ids is replacing the entries
with the matching ids.  If either id has no pool entry the pool is
unchanged (unreachable in JS, where the batch holds pool references). -/
noncomputable def applyUpdate (pool : List Item) (wid lid : ℕ) (isDraw : Bool) :
    List Item :=
  match pool.find? (fun c => c.id == wid), pool.find? (fun c => c.id == lid) with
  | some w, some l =>
    let wl := updateEloRatings w l isDraw
    pool.map fun c => if c.id = wid then wl.1 else if c.id = lid then wl.2 else c
  | _, _ => pool

/-- The winner-versus-loser loops of `pick`: every picked id is updated
against every non-picked id of the batch as a win/loss pair, in stable
batch order. -/
noncomputable def updatePairs (pool : List Item) (ws ls : List ℕ) : List Item :=
  ws.foldl (fun p w => ls.foldl (fun q l => applyUpdate q w l false) p) pool

/-- The pairwise draw loops (`for i, for j > i`): every ordered pair of
ids in the list is updated as a mutual draw. -/
noncomputable def drawPairs (pool : List Item) : List ℕ → List Item
  | [] => pool
  | w :: rest => drawPairs (rest.foldl (fun q l => applyUpdate q w l true) pool) rest

/-- `checkForNewFavorites()`: once 20 rounds have elapsed, promote the
top-rated active item with at least 10 comparisons when it leads the
second best by more than 100 (`sorted[1]?.eloRating || 1500` treats a
missing or zero runner-up rating as 1500) or 25 rounds have elapsed. -/
noncomputable def checkForNewFavorites (s : State) : State :=
  if 20 ≤ s.analytics.sessionComparisons then
    let available := s.colors.filter fun c =>
      c.id ∉ s.eliminated ∧ c.id ∉ s.favorites ∧ 10 ≤ c.comparisons
    match sortByRatingDesc available with
    | [] => s
    | top :: rest =>
      let second := match rest with
        | [] => (1500 : ℝ)
        | b :: _ => if b.eloRating = 0 then 1500 else b.eloRating
      if second + 100 < top.eloRating ∨ 25 ≤ s.analytics.sessionComparisons then
        { s with favorites := s.favorites ++ [top.id] }
      else s
  else s

/-- `nextBatch()`.  Completes immediately at the round cap or on an empty
active set; once ten rounds have elapsed, eliminates every active item
with at least 8 comparisons rated more than 200 below the 75th-percentile
rating (`sortedByRating[floor(len*0.75)]?.eloRating || 1500`: a zero
rating at that index falls back to 1500); then selects a diverse batch
from the still-active items at size `min(10, |available|)`. -/
noncomputable def nextBatch (s : State) (now : ℕ) (rng : RandSrc)
    (keys : List ℕ) : State :=
  if s.sessionComplete = true ∨ s.maxComparisons ≤ s.analytics.sessionComparisons then
    { s with evaluating := none, sessionComplete := true }
  else
    let available := s.colors.filter fun c =>
      c.id ∉ s.eliminated ∧ c.id ∉ s.favorites
    if available.isEmpty then
      { s with evaluating := none, sessionComplete := true }
    else
      let eliminated2 :=
        if 10 ≤ s.analytics.sessionComparisons then
          let sorted := sortByRatingDesc available
          let thr0 := (sorted.getD (sorted.length * 3 / 4) default).eloRating
          let threshold := if thr0 = 0 then (1500 : ℝ) else thr0
          s.eliminated ++ (available.filter fun c =>
            8 ≤ c.comparisons ∧ c.eloRating < threshold - 200).map Item.id
        else s.eliminated
      let batchSize := min 10 available.length
      let active := available.filter fun c => c.id ∉ eliminated2
      let batch := selectDiverseBatch active batchSize rng 0 keys
      { s with
          eliminated := eliminated2
          evaluating := some (batch.map Item.id)
          lastActionTime := now }

/-- Shared decision-latency bookkeeping of `pick` and `pass`. -/
def logDecision (a : Analytics) (now lastActionTime : ℕ) : Analytics :=
  let dts := a.decisionTimes ++ [now - lastActionTime]
  { a with
      decisionTimes := dts
      averageDecisionTime := ((dts.sum : ℚ)) / ((dts.length : ℚ)) }

/-- `pick(picked)`.  A no-op when there is no batch (JS `!this.evaluating`
is true only for `null`; an empty array is truthy) or the picked id list
is empty; forces completion at the round cap; otherwise applies the
win/loss pairs, then the co-winner draw pairs, bumps the counters, runs
favorite promotion, and advances. -/
noncomputable def pick (s : State) (picked : List ℕ) (now : ℕ) (rng : RandSrc)
    (keys : List ℕ) : State :=
  match s.evaluating with
  | none => s
  | some ev =>
    if picked.isEmpty then s
    else if s.sessionComplete = true ∨ s.maxComparisons ≤ s.analytics.sessionComparisons then
      { s with sessionComplete := true, evaluating := none }
    else
      let a1 := logDecision s.analytics now s.lastActionTime
      let winners := ev.filter fun c => c ∈ picked
      let losers := ev.filter fun c => c ∉ picked
      let pool1 := updatePairs s.colors winners losers
      let pool2 := if 1 < winners.length then drawPairs pool1 winners else pool1
      let a2 := { a1 with
        sessionComparisons := a1.sessionComparisons + 1
        totalComparisons := a1.totalComparisons + 1
        picks := a1.picks + 1 }
      let s2 := checkForNewFavorites { s with colors := pool2, analytics := a2 }
      if s2.maxComparisons ≤ s2.analytics.sessionComparisons then
        { s2 with sessionComplete := true, evaluating := none }
      else nextBatch s2 now rng keys

/-- `pass()`.  A no-op only when the batch is `null`; forces completion at
the round cap; otherwise applies a mutual draw to every pair of the batch
and bumps `sessionComparisons` and `passes` (not `totalComparisons`, and
no favorite promotion). -/
noncomputable def pass (s : State) (now : ℕ) (rng : RandSrc)
    (keys : List ℕ) : State :=
  match s.evaluating with
  | none => s
  | some ev =>
    if s.sessionComplete = true ∨ s.maxComparisons ≤ s.analytics.sessionComparisons then
      { s with sessionComplete := true, evaluating := none }
    else
      let a1 := logDecision s.analytics now s.lastActionTime
      let pool2 := drawPairs s.colors ev
      let a2 := { a1 with
        sessionComparisons := a1.sessionComparisons + 1
        passes := a1.passes + 1 }
      let s2 := { s with colors := pool2, analytics := a2 }
      if s2.maxComparisons ≤ s2.analytics.sessionComparisons then
        { s2 with sessionComplete := true, evaluating := none }
      else nextBatch s2 now rng keys

/-- The constructor plus `initialize(settings)`: build the pool (generated
when `generateColors` is not false, with `colorCount || 200` items;
otherwise adopt `options.items`, defaulting a falsy rating to 1500),
clear the membership sets, reset the session counters, and compute the
first batch. -/
noncomputable def initSession (opts : Options) (settings : ℕ) (seed : ℚ)
    (now : ℕ) (rng : RandSrc) (keys : List ℕ) : State :=
  let colors :=
    if opts.generateColors then
      generatePerceptuallyDistinctColors
        (if opts.colorCount = 0 then 200 else opts.colorCount) seed
    else
      opts.items.map fun it =>
        { it with eloRating := if it.eloRating = 0 then 1500 else it.eloRating }
  nextBatch
    { maxComparisons := opts.cap
      analytics :=
        { sessionStartTime := now
          totalComparisons := 0
          sessionComparisons := 0
          passes := 0
          picks := 0
          averageDecisionTime := 0
          decisionTimes := [] }
      lastActionTime := now
      colors := colors
      eliminated := []
      favorites := []
      evaluating := none
      settings := settings
      sessionComplete := false } now rng keys

/-- `restoreState(state)`: rebuild the pool, overlay the saved statistics
by id match (ids absent from the pool are dropped silently), rebuild the
membership id lists against the pool, adopt the snapshot analytics and
completion flag, and force `Complete` with a `null` batch when the flag
was set or the restored round count has reached the cap. -/
noncomputable def restoreState (opts : Options) (snap : Snapshot)
    (seed : ℚ) (now : ℕ) : State :=
  let baseColors :=
    if opts.generateColors then
      generatePerceptuallyDistinctColors
        (if opts.colorCount = 0 then 200 else opts.colorCount) seed
    else opts.items
  let colors := baseColors.map fun c =>
    match snap.colors.find? (fun sc => sc.id == c.id) with
    | some sc =>
      { c with
          eloRating := sc.eloRating
          comparisons := sc.comparisons
          wins := sc.wins
          losses := sc.losses }
    | none => c
  let ids := colors.map Item.id
  let evaluating := match snap.evaluating with
    | none => none
    | some l => some (l.filter fun i => i ∈ ids)
  let favorites := snap.favorites.filter fun i => i ∈ ids
  let eliminated := snap.eliminated.filter fun i => i ∈ ids
  let base : State :=
    { maxComparisons := opts.cap
      analytics := snap.analytics
      lastActionTime := now
      colors := colors
      eliminated := eliminated
      favorites := favorites
      evaluating := evaluating
      settings := snap.settings
      sessionComplete := snap.sessionComplete }
  if base.sessionComplete = true ∨ base.maxComparisons ≤ base.analytics.sessionComparisons then
    { base with evaluating := none, sessionComplete := true }
  else base

/-- A decision trace: the external inputs of one `pick` or `pass` call. -/
inductive Cmd where
  | pickCmd (picked : List ℕ) (now : ℕ) (rng : RandSrc) (keys : List ℕ)
  | passCmd (now : ℕ) (rng : RandSrc) (keys : List ℕ)

/-- Run a finite sequence of `pick`/`pass` calls. -/
noncomputable def runCmds (s : State) : List Cmd → State
  | [] => s
  | Cmd.pickCmd picked now rng keys :: rest => runCmds (pick s picked now rng keys) rest
  | Cmd.passCmd now rng keys :: rest => runCmds (pass s now rng keys) rest

-- ============================================
-- DERIVED NOTIONS USED BY THE THEOREMS
-- ============================================

/-- The id list of a pool (the identities of its items, in order). -/
def idsOf (l : List Item) : List ℕ := l.map Item.id

/-- Total rating mass of a pool. -/
def ratingSum (l : List Item) : ℝ := (l.map Item.eloRating).sum

/-- Replace the entries of `pool` whose id is `i` by `x` (the effect of
mutating, through a reference, the unique pool object with id `i`). -/
def replaceById (pool : List Item) (i : ℕ) (x : Item) : List Item :=
  pool.map fun c => if c.id = i then x else c

-- ============================================
-- CONCRETE FIXTURES
-- ============================================

/-- The constant-zero random source. -/
def rngZero : RandSrc :=
  ⟨fun _ => 0, fun _ => le_refl 0, fun _ => by norm_num⟩

/-- A random source whose first draw is 9/10 and all later draws 0:
it makes `selectDiverseBatch` keep the top color (no skip) and include
the first high-rated candidate. -/
def rngSkip : RandSrc :=
  ⟨fun i => if i = 0 then 9 / 10 else 0,
   fun i => by dsimp only; split <;> norm_num,
   fun i => by dsimp only; split <;> norm_num⟩

/-- Analytics with all counters zero. -/
def zeroAnalytics : Analytics :=
  ⟨0, 0, 0, 0, 0, 0, []⟩

/-- Analytics whose session round counter is `k`, all else zero. -/
def analyticsAt (k : ℕ) : Analytics :=
  ⟨0, 0, k, 0, 0, 0, []⟩

/-- A fresh session over a pool of three items rated 1500 with zeroed
statistics, whose current batch is all three items. -/
def threeState : State :=
  { maxComparisons := 20
    analytics := zeroAnalytics
    lastActionTime := 0
    colors := [⟨1, 0, 1500, 0, 0, 0⟩, ⟨2, 0, 1500, 0, 0, 0⟩, ⟨3, 0, 1500, 0, 0, 0⟩]
    eliminated := []
    favorites := []
    evaluating := some [1, 2, 3]
    settings := 0
    sessionComplete := false }

/-- A mid-session state with a single active item whose rating is 0 (a
falsy JS rating, so the percentile threshold falls back to 1500) and 8
comparisons: the elimination pass of `nextBatch` removes it. -/
def oneItemState : State :=
  { maxComparisons := 20
    analytics := analyticsAt 10
    lastActionTime := 0
    colors := [⟨0, 0, 0, 8, 0, 0⟩]
    eliminated := []
    favorites := []
    evaluating := some [0]
    settings := 0
    sessionComplete := false }

/-- Options that adopt an explicitly empty item list. -/
def emptyItemOpts : Options := ⟨false, 0, [], 0⟩

/-- Options requesting generation with a (falsy) item count of zero. -/
def zeroCountOpts : Options := ⟨true, 0, [], 0⟩

/-- A snapshot of an incomplete session whose evaluating ids match no
pool item (so restoration yields an empty, non-null batch). -/
def danglingSnap : Snapshot :=
  ⟨[], some [5], [], [], 0, zeroAnalytics, false⟩

/-- A snapshot marked incomplete whose round counter already equals the
default round cap of 20. -/
def atCapSnap : Snapshot :=
  ⟨[], none, [], [], 0, analyticsAt 20, false⟩

-- ============================================
-- GENERAL LEMMAS ABOUT THE STATE MACHINE
-- ============================================

theorem nextBatch_colors (s : State) (now : ℕ) (rng : RandSrc) (keys : List ℕ) :
    (nextBatch s now rng keys).colors = s.colors := by
  unfold nextBatch
  split
  · rfl
  · dsimp only
    split
    · rfl
    · rfl

theorem nextBatch_not_complete (s : State) (now : ℕ) (rng : RandSrc) (keys : List ℕ)
    (h1 : s.sessionComplete = false)
    (h2 : s.analytics.sessionComparisons < s.maxComparisons)
    (h3 : (s.colors.filter fun c => c.id ∉ s.eliminated ∧ c.id ∉ s.favorites) ≠ []) :
    (nextBatch s now rng keys).sessionComplete = false := by
  unfold nextBatch
  rw [if_neg (by simp [h1]; omega)]
  dsimp only
  rw [if_neg (by simpa [List.isEmpty_iff] using h3)]
  exact h1

theorem completeOr_nextBatch_colors (c : Prop) [Decidable c] (x : State)
    (now : ℕ) (rng : RandSrc) (keys : List ℕ) :
    (if c then ({ x with sessionComplete := true, evaluating := none } : State)
     else nextBatch x now rng keys).colors = x.colors := by
  split
  · rfl
  · exact nextBatch_colors x now rng keys

theorem nextBatch_complete_of_empty (s : State) (now : ℕ) (rng : RandSrc)
    (keys : List ℕ)
    (h3 : (s.colors.filter fun c => c.id ∉ s.eliminated ∧ c.id ∉ s.favorites) = []) :
    (nextBatch s now rng keys).sessionComplete = true ∧
    (nextBatch s now rng keys).evaluating = none := by
  unfold nextBatch
  split
  · exact ⟨rfl, rfl⟩
  · dsimp only
    rw [if_pos (by simpa [List.isEmpty_iff] using h3)]
    exact ⟨rfl, rfl⟩

-- ============================================
-- RATING-SUM AND ID LEMMAS
-- ============================================

theorem updateEloRatings_sum (w l : Item) (d : Bool) :
    (updateEloRatings w l d).1.eloRating + (updateEloRatings w l d).2.eloRating
      = w.eloRating + l.eloRating := by
  have h := calculateExpectedScore_add w.eloRating l.eloRating
  cases d
  · show (w.eloRating + max 32 (64 - (w.comparisons : ℝ) * 2) *
        (1 - calculateExpectedScore w.eloRating l.eloRating))
      + (l.eloRating + max 32 (64 - (w.comparisons : ℝ) * 2) *
        (0 - calculateExpectedScore l.eloRating w.eloRating))
      = w.eloRating + l.eloRating
    linear_combination (-(max 32 (64 - (w.comparisons : ℝ) * 2))) * h
  · show (w.eloRating + max 32 (64 - (w.comparisons : ℝ) * 2) *
        (1 / 2 - calculateExpectedScore w.eloRating l.eloRating))
      + (l.eloRating + max 32 (64 - (w.comparisons : ℝ) * 2) *
        (1 / 2 - calculateExpectedScore l.eloRating w.eloRating))
      = w.eloRating + l.eloRating
    linear_combination (-(max 32 (64 - (w.comparisons : ℝ) * 2))) * h

theorem updateEloRatings_fst_id (w l : Item) (d : Bool) :
    (updateEloRatings w l d).1.id = w.id := by
  cases d <;> simp [updateEloRatings]

theorem updateEloRatings_snd_id (w l : Item) (d : Bool) :
    (updateEloRatings w l d).2.id = l.id := by
  cases d <;> simp [updateEloRatings]

@[simp] theorem idsOf_nil : idsOf [] = [] := rfl

@[simp] theorem idsOf_cons (a : Item) (l : List Item) :
    idsOf (a :: l) = a.id :: idsOf l := rfl

@[simp] theorem ratingSum_nil : ratingSum [] = 0 := rfl

@[simp] theorem ratingSum_cons (a : Item) (l : List Item) :
    ratingSum (a :: l) = a.eloRating + ratingSum l := by
  simp [ratingSum]

theorem replaceById_of_forall_ne (pool : List Item) (i : ℕ) (x : Item)
    (h : ∀ c ∈ pool, c.id ≠ i) : replaceById pool i x = pool := by
  unfold replaceById
  rw [List.map_congr_left fun a ha => if_neg (h a ha)]
  exact List.map_id pool

theorem idsOf_replaceById (pool : List Item) (i : ℕ) (x : Item)
    (hx : x.id = i) : idsOf (replaceById pool i x) = idsOf pool := by
  unfold idsOf replaceById
  rw [List.map_map]
  apply List.map_congr_left
  intro a _
  by_cases h : a.id = i <;> simp [Function.comp, h, hx]

theorem mem_replaceById_of_ne {w : Item} {pool : List Item} {i : ℕ} (x : Item)
    (hw : w ∈ pool) (hne : w.id ≠ i) : w ∈ replaceById pool i x := by
  have h := List.mem_map_of_mem (fun c => if c.id = i then x else c) hw
  dsimp only at h
  unfold replaceById
  rwa [if_neg hne] at h

theorem ratingSum_replaceById (pool : List Item) (w : Item) (i : ℕ) (x : Item)
    (hN : (idsOf pool).Nodup) (hw : w ∈ pool) (hid : w.id = i) :
    ratingSum (replaceById pool i x) = ratingSum pool - w.eloRating + x.eloRating := by
  induction pool with
  | nil => cases hw
  | cons a t ih =>
    have hNt : (idsOf t).Nodup := (List.nodup_cons.mp hN).2
    have hat : a.id ∉ idsOf t := (List.nodup_cons.mp hN).1
    by_cases ha : a.id = i
    · have hwa : w = a := by
        rcases List.mem_cons.mp hw with h | h
        · exact h
        · have hmem : w.id ∈ idsOf t := List.mem_map_of_mem Item.id h
          rw [hid, ← ha] at hmem
          exact absurd hmem hat
      subst hwa
      have ht : replaceById t i x = t := by
        refine replaceById_of_forall_ne t i x fun c hc hci => ?_
        have hmem : c.id ∈ idsOf t := List.mem_map_of_mem Item.id hc
        rw [hci, ← ha] at hmem
        exact hat hmem
      unfold replaceById
      simp only [List.map_cons, if_pos ha]
      have ht' : (t.map fun c => if c.id = i then x else c) = t := ht
      rw [ht', ratingSum_cons, ratingSum_cons]
      ring
    · have hwt : w ∈ t := by
        rcases List.mem_cons.mp hw with h | h
        · exact absurd (h ▸ hid) ha
        · exact h
      unfold replaceById
      simp only [List.map_cons, if_neg ha]
      have := ih hNt hwt
      unfold replaceById at this
      rw [ratingSum_cons, this, ratingSum_cons]
      ring

theorem applyUpdate_map_decomp (pool : List Item) (wid lid : ℕ)
    (w' l' : Item) (hne : wid ≠ lid) (hl' : l'.id = lid) :
    (pool.map fun c => if c.id = wid then w' else if c.id = lid then l' else c)
      = replaceById (replaceById pool lid l') wid w' := by
  unfold replaceById
  rw [List.map_map]
  apply List.map_congr_left
  intro a _
  dsimp only [Function.comp]
  by_cases h1 : a.id = wid
  · have h2 : ¬a.id = lid := fun h => hne (h1.symm.trans h)
    simp only [if_neg h2, if_pos h1]
  · by_cases h2 : a.id = lid
    · have h3 : ¬l'.id = wid := by
        rw [hl']
        exact fun h => hne h.symm
      simp only [if_pos h2, if_neg h1, if_neg h3]
    · simp only [if_neg h1, if_neg h2]

theorem idsOf_applyUpdate (pool : List Item) (wid lid : ℕ) (d : Bool) :
    idsOf (applyUpdate pool wid lid d) = idsOf pool := by
  unfold applyUpdate
  cases hfw : pool.find? fun c => c.id == wid with
  | none => rfl
  | some w =>
    cases hfl : pool.find? fun c => c.id == lid with
    | none => rfl
    | some l =>
      have hwid : w.id = wid := by simpa using List.find?_some hfw
      have hlid : l.id = lid := by simpa using List.find?_some hfl
      dsimp only
      unfold idsOf
      rw [List.map_map]
      apply List.map_congr_left
      intro a _
      dsimp only [Function.comp]
      by_cases h1 : a.id = wid
      · rw [if_pos h1, updateEloRatings_fst_id, hwid, h1]
      · by_cases h2 : a.id = lid
        · rw [if_neg h1, if_pos h2, updateEloRatings_snd_id, hlid, h2]
        · rw [if_neg h1, if_neg h2]

theorem ratingSum_applyUpdate (pool : List Item) (wid lid : ℕ) (d : Bool)
    (hN : (idsOf pool).Nodup) (hne : wid ≠ lid) :
    ratingSum (applyUpdate pool wid lid d) = ratingSum pool := by
  unfold applyUpdate
  cases hfw : pool.find? fun c => c.id == wid with
  | none => rfl
  | some w =>
    cases hfl : pool.find? fun c => c.id == lid with
    | none => rfl
    | some l =>
      have hwid : w.id = wid := by simpa using List.find?_some hfw
      have hlid : l.id = lid := by simpa using List.find?_some hfl
      have hwmem := List.mem_of_find?_eq_some hfw
      have hlmem := List.mem_of_find?_eq_some hfl
      dsimp only
      rw [applyUpdate_map_decomp pool wid lid _ _ hne
        ((updateEloRatings_snd_id w l d).trans hlid)]
      rw [ratingSum_replaceById (replaceById pool lid (updateEloRatings w l d).2)
        w wid _
        (by rw [idsOf_replaceById _ _ _ ((updateEloRatings_snd_id w l d).trans hlid)]
            exact hN)
        (mem_replaceById_of_ne _ hwmem (hwid ▸ hne))
        hwid]
      rw [ratingSum_replaceById pool l lid _ hN hlmem hlid]
      have hsum := updateEloRatings_sum w l d
      ring_nf
      ring_nf at hsum
      linarith

theorem idsOf_foldl_applyUpdate (w : ℕ) (d : Bool) (ls : List ℕ) :
    ∀ pool : List Item,
      idsOf (ls.foldl (fun q l => applyUpdate q w l d) pool) = idsOf pool := by
  induction ls with
  | nil => intro pool; rfl
  | cons a t ih =>
    intro pool
    rw [List.foldl_cons, ih, idsOf_applyUpdate]

theorem ratingSum_foldl_applyUpdate (w : ℕ) (d : Bool) (ls : List ℕ) :
    ∀ pool : List Item, (idsOf pool).Nodup → (∀ l ∈ ls, w ≠ l) →
      ratingSum (ls.foldl (fun q l => applyUpdate q w l d) pool) = ratingSum pool := by
  induction ls with
  | nil => intro pool _ _; rfl
  | cons a t ih =>
    intro pool hN hne
    rw [List.foldl_cons,
      ih _ (by rw [idsOf_applyUpdate]; exact hN)
        (fun l hl => hne l (List.mem_cons_of_mem a hl)),
      ratingSum_applyUpdate pool w a d hN (hne a (List.mem_cons_self a t))]

theorem idsOf_updatePairs (ws ls : List ℕ) :
    ∀ pool : List Item, idsOf (updatePairs pool ws ls) = idsOf pool := by
  induction ws with
  | nil => intro pool; rfl
  | cons a t ih =>
    intro pool
    unfold updatePairs
    rw [List.foldl_cons]
    have := ih (ls.foldl (fun q l => applyUpdate q a l false) pool)
    unfold updatePairs at this
    rw [this, idsOf_foldl_applyUpdate]

theorem ratingSum_updatePairs (ws ls : List ℕ) :
    ∀ pool : List Item, (idsOf pool).Nodup → (∀ w ∈ ws, ∀ l ∈ ls, w ≠ l) →
      ratingSum (updatePairs pool ws ls) = ratingSum pool := by
  induction ws with
  | nil => intro pool _ _; rfl
  | cons a t ih =>
    intro pool hN hne
    unfold updatePairs
    rw [List.foldl_cons]
    have hstep := ratingSum_foldl_applyUpdate a false ls pool hN
      (hne a (List.mem_cons_self a t))
    have hids := idsOf_foldl_applyUpdate a false ls pool
    have := ih (ls.foldl (fun q l => applyUpdate q a l false) pool)
      (by rw [hids]; exact hN)
      (fun w hw l hl => hne w (List.mem_cons_of_mem a hw) l hl)
    unfold updatePairs at this
    rw [this, hstep]

theorem idsOf_drawPairs (ws : List ℕ) :
    ∀ pool : List Item, idsOf (drawPairs pool ws) = idsOf pool := by
  induction ws with
  | nil => intro pool; rfl
  | cons a t ih =>
    intro pool
    rw [drawPairs, ih, idsOf_foldl_applyUpdate]

theorem ratingSum_drawPairs (ws : List ℕ) :
    ∀ pool : List Item, (idsOf pool).Nodup → ws.Nodup →
      ratingSum (drawPairs pool ws) = ratingSum pool := by
  induction ws with
  | nil => intro pool _ _; rfl
  | cons a t ih =>
    intro pool hN hnd
    have hat : a ∉ t := (List.nodup_cons.mp hnd).1
    rw [drawPairs,
      ih _ (by rw [idsOf_foldl_applyUpdate]; exact hN) (List.nodup_cons.mp hnd).2,
      ratingSum_foldl_applyUpdate a true t pool hN
        (fun l hl heq => hat (heq ▸ hl))]

theorem checkForNewFavorites_colors (s : State) :
    (checkForNewFavorites s).colors = s.colors := by
  unfold checkForNewFavorites
  split
  · dsimp only
    split
    · rfl
    · split
      · rfl
      · rfl
  · rfl

/-- The picked and non-picked halves of a batch are disjoint id lists. -/
theorem filter_picked_disjoint (ev picked : List ℕ) :
    ∀ w ∈ ev.filter (fun c => c ∈ picked),
      ∀ l ∈ ev.filter (fun c => c ∉ picked), w ≠ l := by
  intro w hw l hl hwl
  have hw' : w ∈ picked := by
    have := (List.mem_filter.mp hw).2
    simpa using this
  have hl' : l ∉ picked := by
    have := (List.mem_filter.mp hl).2
    simpa using this
  exact hl' (hwl ▸ hw')

-- ============================================
-- CLAIM C1: K-factor attribution in updateEloRatings
-- ============================================

/-- C1 counterexample: in `update(winner, loser, false)` with a winner of
16 prior comparisons (own K = 32) and a loser of 0 prior comparisons
(own K would be 64), at equal ratings 1500 the loser lands on
`1500 + 32·(0 − 1/2) = 1484`, not on the `1500 + 64·(0 − 1/2) = 1468`
that a K derived from the loser's own comparison count would give: the
loser's rating delta uses the winner's K-factor, not its own. -/
theorem claim1_counterexample :
    (updateEloRatings ⟨0, 0, 1500, 16, 0, 0⟩ ⟨1, 0, 1500, 0, 0, 0⟩ false).2.eloRating = 1484 ∧
    (1500 : ℝ) + max 32 (64 - ((⟨1, 0, 1500, 0, 0, 0⟩ : Item).comparisons : ℝ) * 2) *
      (0 - calculateExpectedScore 1500 1500) = 1468 ∧
    (1484 : ℝ) ≠ 1468 := by
  refine ⟨?_, ?_, by norm_num⟩
  · simp only [updateEloRatings, calculateExpectedScore_self]
    norm_num
  · simp only [calculateExpectedScore_self]
    norm_num

/-- C1 amended: in every non-draw `update(winner, loser, false)` one
single K-factor, `max(32, 64 − 2·winnerComparisons)` derived from the
winner's prior comparison count, scales both participants' rating
deltas; in particular the loser's delta is
`K_winner · (0 − expected(loser, winner))`, not a delta computed from
the loser's own comparison count. -/
theorem claim1_shared_winner_k (w l : Item) :
    (updateEloRatings w l false).1.eloRating
      = w.eloRating + max 32 (64 - (w.comparisons : ℝ) * 2) *
          (1 - calculateExpectedScore w.eloRating l.eloRating) ∧
    (updateEloRatings w l false).2.eloRating
      = l.eloRating + max 32 (64 - (w.comparisons : ℝ) * 2) *
          (0 - calculateExpectedScore l.eloRating w.eloRating) := by
  constructor <;> simp [updateEloRatings]

-- ============================================
-- CLAIM C8: non-draw update with equal priors
-- ============================================

/-- C8: a non-draw update between items with equal prior ratings and
equal prior comparison counts strictly raises the winner's rating,
strictly lowers the loser's, and the two deltas have equal magnitude. -/
theorem claim8_equal_priors (w l : Item)
    (hr : w.eloRating = l.eloRating) (hc : w.comparisons = l.comparisons) :
    w.eloRating < (updateEloRatings w l false).1.eloRating ∧
    (updateEloRatings w l false).2.eloRating < l.eloRating ∧
    (updateEloRatings w l false).1.eloRating - w.eloRating
      = -((updateEloRatings w l false).2.eloRating - l.eloRating) := by
  have hK := kFactor_pos w.comparisons
  simp only [updateEloRatings, Bool.false_eq_true, if_false]
  rw [hr, calculateExpectedScore_self]
  refine ⟨by linarith, by linarith, by ring⟩

/-- C8 witness at two fresh items rated 1500 with no comparisons. -/
theorem claim8_equal_priors_witness :
    (⟨0, 0, 1500, 0, 0, 0⟩ : Item).eloRating = (⟨1, 0, 1500, 0, 0, 0⟩ : Item).eloRating ∧
    (⟨0, 0, 1500, 0, 0, 0⟩ : Item).comparisons = (⟨1, 0, 1500, 0, 0, 0⟩ : Item).comparisons ∧
    ((⟨0, 0, 1500, 0, 0, 0⟩ : Item).eloRating
      < (updateEloRatings ⟨0, 0, 1500, 0, 0, 0⟩ ⟨1, 0, 1500, 0, 0, 0⟩ false).1.eloRating ∧
     (updateEloRatings ⟨0, 0, 1500, 0, 0, 0⟩ ⟨1, 0, 1500, 0, 0, 0⟩ false).2.eloRating
      < (⟨1, 0, 1500, 0, 0, 0⟩ : Item).eloRating ∧
     (updateEloRatings ⟨0, 0, 1500, 0, 0, 0⟩ ⟨1, 0, 1500, 0, 0, 0⟩ false).1.eloRating
        - (⟨0, 0, 1500, 0, 0, 0⟩ : Item).eloRating
      = -((updateEloRatings ⟨0, 0, 1500, 0, 0, 0⟩ ⟨1, 0, 1500, 0, 0, 0⟩ false).2.eloRating
        - (⟨1, 0, 1500, 0, 0, 0⟩ : Item).eloRating)) :=
  ⟨rfl, rfl, claim8_equal_priors _ _ rfl rfl⟩

-- ============================================
-- CLAIM C9: restoring a snapshot already at the round cap
-- ============================================

/-- C9: restoring any snapshot whose completion flag is false but whose
restored `sessionComparisons` has reached (or exceeded) the session's
round cap yields a session reporting `sessionComplete = true` with a
null batch rather than resuming. -/
theorem claim9_restore_at_cap (opts : Options) (snap : Snapshot) (seed : ℚ)
    (now : ℕ) (hflag : snap.sessionComplete = false)
    (hcap : opts.cap ≤ snap.analytics.sessionComparisons) :
    (restoreState opts snap seed now).sessionComplete = true ∧
    (restoreState opts snap seed now).evaluating = none := by
  unfold restoreState
  rw [if_pos (Or.inr hcap)]
  exact ⟨rfl, rfl⟩

/-- C9 witness: options with a falsy round cap (defaulting to 20) and a
snapshot at 20 session comparisons marked incomplete. -/
theorem claim9_restore_at_cap_witness :
    atCapSnap.sessionComplete = false ∧
    emptyItemOpts.cap ≤ atCapSnap.analytics.sessionComparisons ∧
    ((restoreState emptyItemOpts atCapSnap 0 0).sessionComplete = true ∧
     (restoreState emptyItemOpts atCapSnap 0 0).evaluating = none) :=
  ⟨rfl, by decide, claim9_restore_at_cap emptyItemOpts atCapSnap 0 0 rfl (by decide)⟩

-- ============================================
-- CLAIM C3: elimination emptying the active set
-- ============================================

/-- C3 counterexample: on a state with a single active item rated 0 (a
falsy JS rating, so the 75th-percentile threshold falls back to 1500)
with 8 comparisons and 10 elapsed rounds, the elimination pass of
`nextBatch` removes every active item, yet the session does *not*
transition to Complete: `sessionComplete` stays false and the batch
becomes the empty (non-null) list. -/
theorem claim3_counterexample :
    (nextBatch oneItemState 3 rngZero []).eliminated = [0] ∧
    (nextBatch oneItemState 3 rngZero []).sessionComplete = false ∧
    (nextBatch oneItemState 3 rngZero []).evaluating = some [] := by
  norm_num [nextBatch, oneItemState, analyticsAt, sortByRatingDesc,
    selectDiverseBatch, List.filter]

/-- C3 amended: `nextBatch` transitions to Complete (true flag, null
batch) when the active set is empty *before* the elimination pass; when
the elimination pass itself empties the active set, the session instead
gets an empty non-null batch with `sessionComplete` still false, and
completion is only detected on the following `nextBatch`. -/
theorem claim3_empty_active_completes (s : State) (now : ℕ) (rng : RandSrc)
    (keys : List ℕ)
    (h : (s.colors.filter fun c => c.id ∉ s.eliminated ∧ c.id ∉ s.favorites) = []) :
    (nextBatch s now rng keys).sessionComplete = true ∧
    (nextBatch s now rng keys).evaluating = none :=
  nextBatch_complete_of_empty s now rng keys h

/-- C3 witness: a session whose whole pool is already eliminated. -/
theorem claim3_empty_active_completes_witness :
    (({ oneItemState with eliminated := [0] } : State).colors.filter fun c =>
      c.id ∉ ({ oneItemState with eliminated := [0] } : State).eliminated ∧
      c.id ∉ ({ oneItemState with eliminated := [0] } : State).favorites) = [] ∧
    ((nextBatch { oneItemState with eliminated := [0] } 3 rngZero []).sessionComplete = true ∧
     (nextBatch { oneItemState with eliminated := [0] } 3 rngZero []).evaluating = none) :=
  ⟨by simp [oneItemState, List.filter],
   claim3_empty_active_completes _ 3 rngZero [] (by simp [oneItemState, List.filter])⟩

-- ============================================
-- CLAIM C4: item count zero
-- ============================================

/-- C4 counterexample: with generation enabled and an item count of 0,
the falsy-default `colorCount || 200` produces a 200-item pool and the
session starts Active (`sessionComplete = false`), not an empty pool in
the Complete state. -/
theorem claim4_counterexample :
    (initSession zeroCountOpts 10 0 0 rngZero []).colors.length = 200 ∧
    (initSession zeroCountOpts 10 0 0 rngZero []).sessionComplete = false := by
  constructor
  · rw [initSession]
    simp only [zeroCountOpts, if_true, if_pos rfl]
    rw [nextBatch_colors]
    simp
  · rw [initSession]
    simp only [zeroCountOpts, if_true, if_pos rfl]
    apply nextBatch_not_complete
    · rfl
    · show 0 < Options.cap zeroCountOpts
      norm_num [Options.cap, zeroCountOpts]
    · show (List.filter _ (generatePerceptuallyDistinctColors 200 0)) ≠ []
      rw [List.filter_eq_self.mpr (by intro a _; simp)]
      intro h
      have hlen := congrArg List.length h
      simp at hlen

/-- C4 amended: `initialize` with `colorCount = 0` and generation enabled
falls back to the default pool of 200 generated items and leaves the
session Active with `sessionComplete = false` (the zero item count is a
falsy option value, so the documented immediate-completion case does not
arise through generation). -/
theorem claim4_zero_count_default (settings : ℕ) (seed : ℚ) (now : ℕ)
    (rng : RandSrc) (keys : List ℕ) :
    (initSession zeroCountOpts settings seed now rng keys).colors.length = 200 ∧
    (initSession zeroCountOpts settings seed now rng keys).sessionComplete = false := by
  constructor
  · rw [initSession]
    simp only [zeroCountOpts, if_true, if_pos rfl]
    rw [nextBatch_colors]
    simp
  · rw [initSession]
    simp only [zeroCountOpts, if_true, if_pos rfl]
    apply nextBatch_not_complete
    · rfl
    · show 0 < Options.cap zeroCountOpts
      norm_num [Options.cap, zeroCountOpts]
    · show (List.filter _ (generatePerceptuallyDistinctColors 200 seed)) ≠ []
      rw [List.filter_eq_self.mpr (by intro a _; simp)]
      intro h
      have hlen := congrArg List.length h
      simp at hlen

-- ============================================
-- CLAIM C5: no-op semantics of pick and pass
-- ============================================

/-- C5 counterexample: an empty but non-null batch is not a no-op state.
Restoring a snapshot whose evaluating ids match no pool item yields
`evaluating = some []`; `pick` with a non-empty id list on that state
increments the `picks` counter (claim: all analytics counters are left
unchanged whenever the evaluating set is null *or empty*). -/
theorem claim5_counterexample :
    (restoreState emptyItemOpts danglingSnap 0 7).evaluating = some [] ∧
    (restoreState emptyItemOpts danglingSnap 0 7).analytics.picks = 0 ∧
    (pick (restoreState emptyItemOpts danglingSnap 0 7) [9] 11 rngZero []).analytics.picks = 1 := by
  refine ⟨?_, rfl, ?_⟩
  · simp [restoreState, emptyItemOpts, danglingSnap, Options.cap, zeroAnalytics]
  · simp [restoreState, emptyItemOpts, danglingSnap, Options.cap, zeroAnalytics,
      pick, logDecision, updatePairs, checkForNewFavorites, nextBatch]

/-- C5 amended: `pick` is a no-op when the evaluating batch is null (JS
`null`) or the picked id list is empty, and `pass` is a no-op when the
batch is null; an empty non-null batch, however, is *not* guarded (the
JS truthiness test passes), so decisions there still advance analytics
counters while leaving item statistics unchanged. -/
theorem claim5_noop (s : State) (picked : List ℕ) (now : ℕ) (rng : RandSrc)
    (keys : List ℕ) :
    (s.evaluating = none ∨ picked = [] → pick s picked now rng keys = s) ∧
    (s.evaluating = none → pass s now rng keys = s) := by
  constructor
  · rintro (h | h)
    · simp [pick, h]
    · cases hev : s.evaluating with
      | none => simp [pick, hev]
      | some ev => simp [pick, hev, h]
  · intro h
    simp [pass, h]

/-- C5 witness: a null-batch state absorbs `pick` and `pass`. -/
theorem claim5_noop_witness :
    ({ oneItemState with evaluating := none } : State).evaluating = none ∧
    pick { oneItemState with evaluating := none } [1] 0 rngZero [] =
      { oneItemState with evaluating := none } ∧
    pass { oneItemState with evaluating := none } 0 rngZero [] =
      { oneItemState with evaluating := none } :=
  ⟨rfl, (claim5_noop _ [1] 0 rngZero []).1 (Or.inl rfl),
    (claim5_noop _ [] 0 rngZero []).2 rfl⟩

-- ============================================
-- CLAIM C10: conservation of total rating mass
-- ============================================

/-- C10: a single call of the rating update rule, draw or non-draw,
leaves the sum of the two participants' ratings unchanged in exact real
arithmetic (the two expected scores sum to 1 and one shared K-factor
scales both deltas); consequently `pick` and `pass` preserve the total
rating mass of the pool, for every decision input and random source
(given the standing well-formedness of references: pairwise distinct
pool ids and a duplicate-free batch). -/
theorem claim10_rating_sum_invariant :
    (∀ (w l : Item) (d : Bool),
      (updateEloRatings w l d).1.eloRating + (updateEloRatings w l d).2.eloRating
        = w.eloRating + l.eloRating) ∧
    (∀ (s : State) (picked : List ℕ) (now : ℕ) (rng : RandSrc) (keys : List ℕ),
      (idsOf s.colors).Nodup → (∀ ev, s.evaluating = some ev → ev.Nodup) →
      ratingSum (pick s picked now rng keys).colors = ratingSum s.colors) ∧
    (∀ (s : State) (now : ℕ) (rng : RandSrc) (keys : List ℕ),
      (idsOf s.colors).Nodup → (∀ ev, s.evaluating = some ev → ev.Nodup) →
      ratingSum (pass s now rng keys).colors = ratingSum s.colors) := by
  refine ⟨updateEloRatings_sum, ?_, ?_⟩
  · intro s picked now rng keys hN hev
    cases hev2 : s.evaluating with
    | none => rw [pick, hev2]
    | some ev =>
      have hnd := hev ev hev2
      have h1 : ratingSum (updatePairs s.colors (ev.filter fun c => c ∈ picked)
          (ev.filter fun c => c ∉ picked)) = ratingSum s.colors :=
        ratingSum_updatePairs _ _ _ hN (filter_picked_disjoint ev picked)
      have h2 : ratingSum (drawPairs (updatePairs s.colors
          (ev.filter fun c => c ∈ picked) (ev.filter fun c => c ∉ picked))
          (ev.filter fun c => c ∈ picked)) = ratingSum s.colors := by
        rw [ratingSum_drawPairs _ _ (by rw [idsOf_updatePairs]; exact hN)
          (hnd.filter _), h1]
      rw [pick, hev2]
      dsimp only
      split
      · rfl
      · split
        · rfl
        · split
          · split
            · dsimp only
              rw [checkForNewFavorites_colors]
              exact h2
            · rw [nextBatch_colors, checkForNewFavorites_colors]
              exact h2
          · split
            · dsimp only
              rw [checkForNewFavorites_colors]
              exact h1
            · rw [nextBatch_colors, checkForNewFavorites_colors]
              exact h1
  · intro s now rng keys hN hev
    cases hev2 : s.evaluating with
    | none => rw [pass, hev2]
    | some ev =>
      have hnd := hev ev hev2
      rw [pass, hev2]
      dsimp only
      split
      · rfl
      · split
        · exact ratingSum_drawPairs ev s.colors hN hnd
        · rw [nextBatch_colors]
          exact ratingSum_drawPairs ev s.colors hN hnd

/-- C10 witness: the three-item fixture has duplicate-free pool and
batch ids, and a `pick` of item 1 preserves the pool's rating mass. -/
theorem claim10_rating_sum_invariant_witness :
    (idsOf threeState.colors).Nodup ∧
    (∀ ev, threeState.evaluating = some ev → ev.Nodup) ∧
    ratingSum (pick threeState [1] 0 rngZero []).colors = ratingSum threeState.colors :=
  ⟨by decide,
   fun ev h => (Option.some.inj h) ▸ (by decide : ([1, 2, 3] : List ℕ).Nodup),
   claim10_rating_sum_invariant.2.1 threeState [1] 0 rngZero [] (by decide)
     (fun ev h => (Option.some.inj h) ▸ (by decide : ([1, 2, 3] : List ℕ).Nodup))⟩


-- ============================================
-- CLAIM C2: the three-item pick scenario
-- ============================================

/-- The expected score of a 1500-rated item against a 1532-rated one is
strictly below one half. -/
theorem expectedScore_1500_1532_lt_half :
    calculateExpectedScore 1500 1532 < 1 / 2 := by
  unfold calculateExpectedScore
  have ht : (1 : ℝ) < (10 : ℝ) ^ (((1532 : ℝ) - 1500) / 400) := by
    have h := (Real.rpow_lt_rpow_left_iff
      (by norm_num : (1 : ℝ) < 10)).mpr
      (by norm_num : (0 : ℝ) < ((1532 : ℝ) - 1500) / 400)
    simpa [Real.rpow_zero] using h
  rw [div_lt_div_iff₀ (by linarith) (by norm_num)]
  linarith

theorem pick_three_step1 : applyUpdate threeState.colors 1 2 false =
    [⟨1, 0, 1532, 1, 1, 0⟩, ⟨2, 0, 1468, 1, 0, 1⟩, ⟨3, 0, 1500, 0, 0, 0⟩] := by
  have h : applyUpdate threeState.colors 1 2 false =
      [⟨1, 0, 1500 + max 32 (64 - ((0 : ℕ) : ℝ) * 2) * (1 - calculateExpectedScore 1500 1500), 1, 1, 0⟩,
       ⟨2, 0, 1500 + max 32 (64 - ((0 : ℕ) : ℝ) * 2) * (0 - calculateExpectedScore 1500 1500), 1, 0, 1⟩,
       ⟨3, 0, 1500, 0, 0, 0⟩] := rfl
  rw [h, calculateExpectedScore_self]
  norm_num

theorem pick_three_step2 :
    applyUpdate [(⟨1, 0, 1532, 1, 1, 0⟩ : Item), ⟨2, 0, 1468, 1, 0, 1⟩, ⟨3, 0, 1500, 0, 0, 0⟩] 1 3 false =
    [⟨1, 0, 1532 + 62 * (1 - calculateExpectedScore 1532 1500), 2, 2, 0⟩,
     ⟨2, 0, 1468, 1, 0, 1⟩,
     ⟨3, 0, 1500 - 62 * calculateExpectedScore 1500 1532, 1, 0, 1⟩] := by
  have h : applyUpdate [(⟨1, 0, 1532, 1, 1, 0⟩ : Item), ⟨2, 0, 1468, 1, 0, 1⟩, ⟨3, 0, 1500, 0, 0, 0⟩] 1 3 false =
      [⟨1, 0, 1532 + max 32 (64 - ((1 : ℕ) : ℝ) * 2) * (1 - calculateExpectedScore 1532 1500), 2, 2, 0⟩,
       ⟨2, 0, 1468, 1, 0, 1⟩,
       ⟨3, 0, 1500 + max 32 (64 - ((1 : ℕ) : ℝ) * 2) * (0 - calculateExpectedScore 1500 1532), 1, 0, 1⟩] := rfl
  rw [h]
  norm_num
  ring

/-- After `pick([item1])` on the 3-item pool of equal 1500 ratings, the
pool is exactly: item1 updated twice (once against each loser, so its
rating rose to 1532 and then by a second K = 62 step), item2 down by
exactly 32, item3 down by 62 times its expected score against the
already-raised item1. -/
theorem pick_threeState_colors (t : ℕ) (rng : RandSrc) (keys : List ℕ) :
    (pick threeState [1] t rng keys).colors =
    [⟨1, 0, 1532 + 62 * (1 - calculateExpectedScore 1532 1500), 2, 2, 0⟩,
     ⟨2, 0, 1468, 1, 0, 1⟩,
     ⟨3, 0, 1500 - 62 * calculateExpectedScore 1500 1532, 1, 0, 1⟩] := by
  have key : (pick threeState [1] t rng keys).colors
      = applyUpdate (applyUpdate threeState.colors 1 2 false) 1 3 false := rfl
  rw [key, pick_three_step1, pick_three_step2]

/-- C2 counterexample: in the 3-item scenario, item1 ends with 2
comparisons and 2 wins (not 1 of each: it is updated pairwise against
each of the two losers), and item2's and item3's rating deltas are
unequal (item2 loses exactly 32 while item3 loses less, the updates
being applied sequentially). -/
theorem claim2_counterexample :
    ((pick threeState [1] 0 rngZero []).colors.getD 0 default).comparisons = 2 ∧
    ((pick threeState [1] 0 rngZero []).colors.getD 0 default).comparisons ≠ 1 ∧
    ((pick threeState [1] 0 rngZero []).colors.getD 0 default).wins = 2 ∧
    ((pick threeState [1] 0 rngZero []).colors.getD 0 default).wins ≠ 1 ∧
    ((pick threeState [1] 0 rngZero []).colors.getD 1 default).eloRating - 1500
      ≠ ((pick threeState [1] 0 rngZero []).colors.getD 2 default).eloRating - 1500 := by
  refine ⟨rfl, by decide, rfl, by decide, ?_⟩
  rw [pick_threeState_colors]
  simp only [List.getD_cons_zero, List.getD_cons_succ]
  have hF := expectedScore_1500_1532_lt_half
  intro heq
  linarith

/-- C2 amended: `pick([item1])` on the fresh 3-item batch raises item1's
rating strictly above 1500 and lowers item2's and item3's strictly below
1500, but by *unequal* amounts (item2 by exactly 32, item3 by less);
the final statistics are comparisons [2, 1, 1], wins [2, 0, 0] and
losses [0, 1, 1] — item1 is updated once per loser. -/
theorem claim2_three_item_pick (t : ℕ) (rng : RandSrc) (keys : List ℕ) :
    1500 < ((pick threeState [1] t rng keys).colors.getD 0 default).eloRating ∧
    ((pick threeState [1] t rng keys).colors.getD 1 default).eloRating < 1500 ∧
    ((pick threeState [1] t rng keys).colors.getD 2 default).eloRating < 1500 ∧
    ((pick threeState [1] t rng keys).colors.getD 1 default).eloRating - 1500
      ≠ ((pick threeState [1] t rng keys).colors.getD 2 default).eloRating - 1500 ∧
    (pick threeState [1] t rng keys).colors.map Item.comparisons = [2, 1, 1] ∧
    (pick threeState [1] t rng keys).colors.map Item.wins = [2, 0, 0] ∧
    (pick threeState [1] t rng keys).colors.map Item.losses = [0, 1, 1] := by
  rw [pick_threeState_colors]
  simp only [List.getD_cons_zero, List.getD_cons_succ, List.map_cons, List.map_nil]
  have hE := calculateExpectedScore_lt_one 1532 1500
  have hFpos := calculateExpectedScore_pos 1500 1532
  have hF := expectedScore_1500_1532_lt_half
  refine ⟨by linarith, by norm_num, by linarith, ?_, trivial, trivial, trivial⟩
  intro heq
  linarith


-- ============================================
-- CLAIM C6: statistics invariant over decision traces
-- ============================================

theorem applyUpdate_stats (pool : List Item) (wid lid : ℕ) (d : Bool)
    (h : ∀ c ∈ pool, c.wins + c.losses ≤ c.comparisons) :
    ∀ c ∈ applyUpdate pool wid lid d, c.wins + c.losses ≤ c.comparisons := by
  unfold applyUpdate
  cases hfw : pool.find? fun c => c.id == wid with
  | none => exact h
  | some w =>
    cases hfl : pool.find? fun c => c.id == lid with
    | none => exact h
    | some l =>
      dsimp only
      intro c hc
      rcases List.mem_map.mp hc with ⟨a, ha, rfl⟩
      have hw := h w (List.mem_of_find?_eq_some hfw)
      have hl := h l (List.mem_of_find?_eq_some hfl)
      by_cases h1 : a.id = wid
      · rw [if_pos h1]
        cases d <;> simp [updateEloRatings] <;> omega
      · by_cases h2 : a.id = lid
        · rw [if_neg h1, if_pos h2]
          cases d <;> simp [updateEloRatings] <;> omega
        · rw [if_neg h1, if_neg h2]
          exact h a ha

theorem foldl_applyUpdate_stats (w : ℕ) (d : Bool) (ls : List ℕ) :
    ∀ pool : List Item, (∀ c ∈ pool, c.wins + c.losses ≤ c.comparisons) →
      ∀ c ∈ ls.foldl (fun q l => applyUpdate q w l d) pool,
        c.wins + c.losses ≤ c.comparisons := by
  induction ls with
  | nil => intro pool h; exact h
  | cons a t ih =>
    intro pool h
    rw [List.foldl_cons]
    exact ih _ (applyUpdate_stats pool w a d h)

theorem updatePairs_stats (ws ls : List ℕ) :
    ∀ pool : List Item, (∀ c ∈ pool, c.wins + c.losses ≤ c.comparisons) →
      ∀ c ∈ updatePairs pool ws ls, c.wins + c.losses ≤ c.comparisons := by
  induction ws with
  | nil => intro pool h; exact h
  | cons a t ih =>
    intro pool h
    unfold updatePairs
    rw [List.foldl_cons]
    have := ih (ls.foldl (fun q l => applyUpdate q a l false) pool)
      (foldl_applyUpdate_stats a false ls pool h)
    unfold updatePairs at this
    exact this

theorem drawPairs_stats (ws : List ℕ) :
    ∀ pool : List Item, (∀ c ∈ pool, c.wins + c.losses ≤ c.comparisons) →
      ∀ c ∈ drawPairs pool ws, c.wins + c.losses ≤ c.comparisons := by
  induction ws with
  | nil => intro pool h; exact h
  | cons a t ih =>
    intro pool h
    rw [drawPairs]
    exact ih _ (foldl_applyUpdate_stats a true t pool h)

theorem pick_stats (s : State) (picked : List ℕ) (now : ℕ) (rng : RandSrc)
    (keys : List ℕ) (h : ∀ c ∈ s.colors, c.wins + c.losses ≤ c.comparisons) :
    ∀ c ∈ (pick s picked now rng keys).colors,
      c.wins + c.losses ≤ c.comparisons := by
  cases hev2 : s.evaluating with
  | none => rw [pick, hev2]; exact h
  | some ev =>
    have hup := updatePairs_stats (ev.filter fun c => c ∈ picked)
      (ev.filter fun c => c ∉ picked) s.colors h
    have hdraw := drawPairs_stats (ev.filter fun c => c ∈ picked) _ hup
    rw [pick, hev2]
    dsimp only
    split
    · exact h
    · split
      · exact h
      · split
        · split
          · dsimp only
            rw [checkForNewFavorites_colors]
            exact hdraw
          · rw [nextBatch_colors, checkForNewFavorites_colors]
            exact hdraw
        · split
          · dsimp only
            rw [checkForNewFavorites_colors]
            exact hup
          · rw [nextBatch_colors, checkForNewFavorites_colors]
            exact hup

theorem pass_stats (s : State) (now : ℕ) (rng : RandSrc) (keys : List ℕ)
    (h : ∀ c ∈ s.colors, c.wins + c.losses ≤ c.comparisons) :
    ∀ c ∈ (pass s now rng keys).colors, c.wins + c.losses ≤ c.comparisons := by
  cases hev2 : s.evaluating with
  | none => rw [pass, hev2]; exact h
  | some ev =>
    have hdraw := drawPairs_stats ev s.colors h
    rw [pass, hev2]
    dsimp only
    split
    · exact h
    · split
      · exact hdraw
      · rw [nextBatch_colors]
        exact hdraw

theorem runCmds_stats (cmds : List Cmd) :
    ∀ s : State, (∀ c ∈ s.colors, c.wins + c.losses ≤ c.comparisons) →
      ∀ c ∈ (runCmds s cmds).colors, c.wins + c.losses ≤ c.comparisons := by
  induction cmds with
  | nil => intro s h; exact h
  | cons cmd rest ih =>
    intro s h
    cases cmd with
    | pickCmd picked now rng keys =>
      rw [runCmds]
      exact ih _ (pick_stats s picked now rng keys h)
    | passCmd now rng keys =>
      rw [runCmds]
      exact ih _ (pass_stats s now rng keys h)

theorem generate_stats (count : ℕ) (seed : ℚ) :
    ∀ c ∈ generatePerceptuallyDistinctColors count seed,
      c.wins + c.losses ≤ c.comparisons := by
  intro c hc
  rcases List.mem_map.mp hc with ⟨i, _, rfl⟩
  exact Nat.le_refl 0

/-- C6: starting from a freshly initialized generated session, after any
finite sequence of `pick`/`pass` calls every pool item satisfies
`wins + losses ≤ comparisons` (ratings live in `ℝ`, hence are finite by
construction of the model; draws bump `comparisons` only). -/
theorem claim6_stats_invariant (opts : Options) (settings : ℕ) (seed : ℚ)
    (now : ℕ) (rng : RandSrc) (keys : List ℕ) (cmds : List Cmd)
    (hgen : opts.generateColors = true) :
    ∀ c ∈ (runCmds (initSession opts settings seed now rng keys) cmds).colors,
      c.wins + c.losses ≤ c.comparisons := by
  apply runCmds_stats
  rw [initSession]
  rw [nextBatch_colors]
  dsimp only
  rw [hgen]
  simp only [if_true]
  exact generate_stats _ seed

/-- C6 witness: a generated 3-item session with an empty trace. -/
theorem claim6_stats_invariant_witness :
    (⟨true, 3, [], 0⟩ : Options).generateColors = true ∧
    ∀ c ∈ (runCmds (initSession ⟨true, 3, [], 0⟩ 0 0 0 rngZero []) []).colors,
      c.wins + c.losses ≤ c.comparisons :=
  ⟨rfl, claim6_stats_invariant ⟨true, 3, [], 0⟩ 0 0 0 rngZero [] [] rfl⟩


-- ============================================
-- CLAIM C7: batch selector contract
-- ============================================

theorem floor_mul_toNat_lt (q : ℚ) (m : ℕ) (h0 : 0 ≤ q) (h1 : q < 1)
    (hm : 0 < m) : (Int.floor (q * (m : ℚ))).toNat < m := by
  have hmq : (0 : ℚ) < (m : ℚ) := by exact_mod_cast hm
  have h2 : q * (m : ℚ) < (m : ℚ) := mul_lt_of_lt_one_left hmq h1
  have h3 : Int.floor (q * (m : ℚ)) < (m : ℤ) := by
    rw [Int.floor_lt]
    exact_mod_cast h2
  have h4 : (0 : ℤ) ≤ Int.floor (q * (m : ℚ)) :=
    Int.floor_nonneg.mpr (by positivity)
  omega

theorem getD_mem {α : Type} {l : List α} {n : ℕ} (h : n < l.length) (d : α) :
    l.getD n d ∈ l := by
  rw [List.getD_eq_getElem?_getD, List.getElem?_eq_getElem h]
  exact List.getElem_mem h

theorem map_eraseIdx {α β : Type} (f : α → β) :
    ∀ (l : List α) (i : ℕ), (l.eraseIdx i).map f = (l.map f).eraseIdx i := by
  intro l
  induction l with
  | nil => intro i; rfl
  | cons a t ih =>
    intro i
    cases i with
    | zero => rfl
    | succ j => simp [List.eraseIdx, ih j]

theorem nodup_ids_getD_not_mem_eraseIdx :
    ∀ (l : List Item) (i : ℕ), (idsOf l).Nodup → i < l.length →
      (l.getD i default).id ∉ (l.eraseIdx i).map Item.id := by
  intro l
  induction l with
  | nil => intro i _ hi; cases hi
  | cons a t ih =>
    intro i hN hi
    cases i with
    | zero =>
      simpa using (List.nodup_cons.mp hN).1
    | succ j =>
      have hjt : j < t.length := by simpa using hi
      have hmeml : (t.getD j default).id ∈ idsOf t :=
        List.mem_map_of_mem Item.id (getD_mem hjt default)
      have hne : (t.getD j default).id ≠ a.id := by
        intro h
        exact (List.nodup_cons.mp hN).1 (h ▸ hmeml)
      have hih := ih j (List.nodup_cons.mp hN).2 hjt
      simp only [List.getD_cons_succ, List.eraseIdx_cons_succ, List.map_cons,
        List.mem_cons]
      rintro (h | h)
      · exact hne h
      · exact hih h

theorem not_mem_ids_of_any_eq_false {b : List Item} {x : ℕ}
    (h : (b.any fun c => c.id == x) = false) : x ∉ idsOf b := by
  intro hx
  rcases List.mem_map.mp hx with ⟨c, hc, rfl⟩
  have : b.any (fun c2 => c2.id == c.id) = true :=
    List.any_eq_true.mpr ⟨c, hc, by simp⟩
  rw [h] at this
  cases this

theorem sortByRatingDesc_perm (l : List Item) :
    List.Perm (sortByRatingDesc l) l :=
  List.mergeSort_perm l _

theorem sortByHueAsc_perm (l : List Item) :
    List.Perm (sortByHueAsc l) l :=
  List.mergeSort_perm l _

theorem mem_groupByHue {colors : List Item} {k : ℕ} {c : Item}
    (h : c ∈ groupByHue colors k) : c ∈ colors := by
  unfold groupByHue at h
  have h2 := (sortByRatingDesc_perm _).mem_iff.mp h
  exact (List.mem_filter.mp h2).1

theorem highRatedPhase_mem (rng : RandSrc) (hrc : ℕ) :
    ∀ (l batch : List Item) (used : List ℕ) (n : ℕ) (c : Item),
      c ∈ (highRatedPhase rng hrc l batch used n).1 → c ∈ batch ∨ c ∈ l := by
  intro l
  induction l with
  | nil => intro batch used n c hc; exact Or.inl hc
  | cons a t ih =>
    intro batch used n c hc
    rw [highRatedPhase] at hc
    split at hc
    · exact Or.inl hc
    · split at hc
      · rcases ih _ _ _ c hc with h | h
        · rcases List.mem_append.mp h with h2 | h2
          · exact Or.inl h2
          · exact Or.inr (List.mem_cons.mpr (Or.inl (List.mem_singleton.mp h2)))
        · exact Or.inr (List.mem_cons_of_mem a h)
      · rcases ih _ _ _ c hc with h | h
        · exact Or.inl h
        · exact Or.inr (List.mem_cons_of_mem a h)

theorem highRatedPhase_nodup (rng : RandSrc) (hrc : ℕ) :
    ∀ (l batch : List Item) (used : List ℕ) (n : ℕ),
      (idsOf batch).Nodup → (idsOf l).Nodup →
      (∀ c ∈ l, c.id ∉ idsOf batch) →
      (idsOf (highRatedPhase rng hrc l batch used n).1).Nodup := by
  intro l
  induction l with
  | nil => intro batch used n hb _ _; exact hb
  | cons a t ih =>
    intro batch used n hb hl hd
    rw [highRatedPhase]
    split
    · exact hb
    · have hat : a.id ∉ idsOf t := (List.nodup_cons.mp hl).1
      have hlt : (idsOf t).Nodup := (List.nodup_cons.mp hl).2
      split
      · apply ih
        · have hperm : List.Perm (idsOf (batch ++ [a])) (a.id :: idsOf batch) := by
            unfold idsOf
            rw [List.map_append]
            simp
          rw [hperm.nodup_iff]
          exact List.nodup_cons.mpr ⟨hd a (List.mem_cons_self a t), hb⟩
        · exact hlt
        · intro c hc
          unfold idsOf
          rw [List.map_append, List.mem_append]
          rintro (h | h)
          · exact hd c (List.mem_cons_of_mem a hc) h
          · have hca : c.id = a.id := by simpa using h
            exact hat (hca ▸ List.mem_map_of_mem Item.id hc)
      · exact ih _ _ _ hb hlt fun c hc => hd c (List.mem_cons_of_mem a hc)

theorem highRatedPhase_length (rng : RandSrc) (hrc : ℕ) :
    ∀ (l batch : List Item) (used : List ℕ) (n : ℕ),
      batch.length ≤ hrc →
      (highRatedPhase rng hrc l batch used n).1.length ≤ hrc := by
  intro l
  induction l with
  | nil => intro batch used n h; exact h
  | cons a t ih =>
    intro batch used n h
    rw [highRatedPhase]
    split
    · exact h
    · split
      · exact ih _ _ _ (by simp; omega)
      · exact ih _ _ _ h


theorem nodup_ids_append_singleton {batch : List Item} {a : Item}
    (hb : (idsOf batch).Nodup) (ha : a.id ∉ idsOf batch) :
    (idsOf (batch ++ [a])).Nodup := by
  have hperm : List.Perm (idsOf (batch ++ [a])) (a.id :: idsOf batch) := by
    unfold idsOf
    rw [List.map_append]
    simp
  rw [hperm.nodup_iff]
  exact List.nodup_cons.mpr ⟨ha, hb⟩

theorem groupPhase_mem (rng : RandSrc) (groups : ℕ → List Item) (size : ℕ)
    (colors : List Item) (hg : ∀ k, ∀ c ∈ groups k, c ∈ colors) :
    ∀ (keys : List ℕ) (batch : List Item) (used : List ℕ) (n : ℕ) (c : Item),
      c ∈ (groupPhase rng groups size keys batch used n).1 →
      c ∈ batch ∨ c ∈ colors := by
  intro keys
  induction keys with
  | nil => intro batch used n c hc; exact Or.inl hc
  | cons k rest ih =>
    intro batch used n c hc
    rw [groupPhase] at hc
    split at hc
    · exact Or.inl hc
    · dsimp only at hc
      split at hc
      · exact ih _ _ _ c hc
      · split at hc
        · exact ih _ _ _ c hc
        · split at hc
          · exact ih _ _ _ c hc
          · rcases ih _ _ _ c hc with h | h
            · rcases List.mem_append.mp h with h2 | h2
              · exact Or.inl h2
              · have hx := List.mem_singleton.mp h2
                have hne : groups k ≠ [] := by
                  intro h0
                  rename_i hempty _ _
                  rw [h0] at hempty
                  exact hempty rfl
                have hlen : 0 < (groups k).length := List.length_pos.mpr hne
                have hidx : (Int.floor (rng.val n *
                    ((min 3 (groups k).length : ℕ) : ℚ))).toNat
                      < min 3 (groups k).length :=
                  floor_mul_toNat_lt _ _ (rng.nonneg n) (rng.lt_one n)
                    (lt_min (by norm_num) hlen)
                exact Or.inr (hg k _ (hx ▸ getD_mem (lt_of_lt_of_le hidx
                  (min_le_right 3 _)) default))
            · exact Or.inr h

theorem groupPhase_nodup (rng : RandSrc) (groups : ℕ → List Item) (size : ℕ) :
    ∀ (keys : List ℕ) (batch : List Item) (used : List ℕ) (n : ℕ),
      (idsOf batch).Nodup →
      (idsOf (groupPhase rng groups size keys batch used n).1).Nodup := by
  intro keys
  induction keys with
  | nil => intro batch used n hb; exact hb
  | cons k rest ih =>
    intro batch used n hb
    rw [groupPhase]
    split
    · exact hb
    · dsimp only
      split
      · exact ih _ _ _ hb
      · split
        · exact ih _ _ _ hb
        · split
          · exact ih _ _ _ hb
          · rename_i hany
            apply ih
            refine nodup_ids_append_singleton hb ?_
            exact not_mem_ids_of_any_eq_false
              (Bool.eq_false_iff.mpr hany)

theorem groupPhase_length (rng : RandSrc) (groups : ℕ → List Item) (size : ℕ) :
    ∀ (keys : List ℕ) (batch : List Item) (used : List ℕ) (n : ℕ),
      batch.length ≤ size →
      (groupPhase rng groups size keys batch used n).1.length ≤ size := by
  intro keys
  induction keys with
  | nil => intro batch used n h; exact h
  | cons k rest ih =>
    intro batch used n h
    rw [groupPhase]
    split
    · exact h
    · dsimp only
      split
      · exact ih _ _ _ h
      · split
        · exact ih _ _ _ h
        · split
          · exact ih _ _ _ h
          · rename_i hlt _ _ _
            exact ih _ _ _ (by simp; omega)

theorem fillPhase_mem (rng : RandSrc) (size : ℕ) :
    ∀ (fuel : ℕ) (remaining batch : List Item) (n : ℕ) (c : Item),
      c ∈ (fillPhase rng size fuel remaining batch n).1 →
      c ∈ batch ∨ c ∈ remaining := by
  intro fuel
  induction fuel with
  | zero => intro remaining batch n c hc; exact Or.inl hc
  | succ f ih =>
    intro remaining batch n c hc
    rw [fillPhase] at hc
    split at hc
    · exact Or.inl hc
    · split at hc
      · exact Or.inl hc
      · rename_i hne
        have hlen : 0 < remaining.length := by
          rcases remaining with _ | _
          · exact absurd rfl hne
          · simp
        have hidx : (Int.floor (rng.val n * (remaining.length : ℚ))).toNat
            < remaining.length :=
          floor_mul_toNat_lt _ _ (rng.nonneg n) (rng.lt_one n) hlen
        rcases ih _ _ _ c hc with h | h
        · rcases List.mem_append.mp h with h2 | h2
          · exact Or.inl h2
          · have hx := List.mem_singleton.mp h2
            exact Or.inr (hx ▸ getD_mem hidx default)
        · exact Or.inr ((List.eraseIdx_sublist remaining _).subset h)

theorem fillPhase_nodup (rng : RandSrc) (size : ℕ) :
    ∀ (fuel : ℕ) (remaining batch : List Item) (n : ℕ),
      (idsOf batch).Nodup → (idsOf remaining).Nodup →
      (∀ c ∈ remaining, c.id ∉ idsOf batch) →
      (idsOf (fillPhase rng size fuel remaining batch n).1).Nodup := by
  intro fuel
  induction fuel with
  | zero => intro remaining batch n hb _ _; exact hb
  | succ f ih =>
    intro remaining batch n hb hr hd
    rw [fillPhase]
    split
    · exact hb
    · split
      · exact hb
      · rename_i hne
        have hlen : 0 < remaining.length := by
          rcases remaining with _ | _
          · exact absurd rfl hne
          · simp
        have hidx : (Int.floor (rng.val n * (remaining.length : ℚ))).toNat
            < remaining.length :=
          floor_mul_toNat_lt _ _ (rng.nonneg n) (rng.lt_one n) hlen
        apply ih
        · exact nodup_ids_append_singleton hb
            (hd _ (getD_mem hidx default))
        · rw [show idsOf (remaining.eraseIdx _) =
              (idsOf remaining).eraseIdx _ from map_eraseIdx Item.id remaining _]
          exact (List.eraseIdx_sublist (idsOf remaining) _).nodup hr
        · intro c hc
          have hcr : c ∈ remaining :=
            (List.eraseIdx_sublist remaining _).subset hc
          unfold idsOf
          rw [List.map_append, List.mem_append]
          rintro (h | h)
          · exact hd c hcr h
          · have hcid : c.id = (remaining.getD
                ((Int.floor (rng.val n * (remaining.length : ℚ))).toNat)
                default).id := by simpa using h
            have hnm := nodup_ids_getD_not_mem_eraseIdx remaining _ hr hidx
            exact hnm (hcid ▸ List.mem_map_of_mem Item.id hc)

theorem fillPhase_length (rng : RandSrc) (size : ℕ) :
    ∀ (fuel : ℕ) (remaining batch : List Item) (n : ℕ),
      fuel = remaining.length → batch.length ≤ size →
      (fillPhase rng size fuel remaining batch n).1.length
        = min size (batch.length + remaining.length) := by
  intro fuel
  induction fuel with
  | zero =>
    intro remaining batch n hf hle
    rw [fillPhase]
    dsimp only
    omega
  | succ f ih =>
    intro remaining batch n hf hle
    rw [fillPhase]
    split
    · rename_i hge
      dsimp only
      omega
    · split
      · rename_i hemp
        dsimp only
        have h0 : remaining = [] := by
          cases remaining with
          | nil => rfl
          | cons x xs => simp at hemp
        rw [h0]
        dsimp only [List.length_nil]
        omega
      · rename_i hnotfull hne
        have hlen : 0 < remaining.length := by
          cases remaining with
          | nil => exact absurd rfl hne
          | cons x xs => simp
        have hidx : (Int.floor (rng.val n * (remaining.length : ℚ))).toNat
            < remaining.length :=
          floor_mul_toNat_lt _ _ (rng.nonneg n) (rng.lt_one n) hlen
        rw [ih _ _ _
          (by rw [List.length_eraseIdx, if_pos hidx]; omega)
          (by simp only [List.length_append, List.length_singleton]; omega)]
        rw [List.length_eraseIdx, if_pos hidx]
        simp only [List.length_append, List.length_singleton]
        omega


theorem length_filter_by_id (l : List Item) (p : ℕ → Bool) :
    (l.filter fun c => p c.id).length = ((l.map Item.id).filter p).length := by
  induction l with
  | nil => rfl
  | cons a t ih =>
    simp only [List.filter_cons, List.map_cons]
    cases hp : p a.id <;> simp [ih]

theorem length_filter_not_mem (u v : List ℕ) (hu : u.Nodup) (hv : v.Nodup)
    (hsub : ∀ x ∈ v, x ∈ u) :
    (u.filter fun x => x ∉ v).length = u.length - v.length := by
  have hperm : List.Perm (u.filter fun x => x ∈ v) v := by
    apply (List.perm_ext_iff_of_nodup (hu.filter _) hv).mpr
    intro a
    constructor
    · intro h
      have := (List.mem_filter.mp h).2
      simpa using this
    · intro h
      exact List.mem_filter.mpr ⟨hsub a h, by simpa using h⟩
  have hsplit := (List.filter_append_perm (fun x => decide (x ∈ v)) u).length_eq
  rw [List.length_append] at hsplit
  have hlen := hperm.length_eq
  have hcongr : (u.filter fun x => decide (x ∉ v))
      = u.filter fun x => !(decide (x ∈ v)) := by
    apply List.filter_congr
    intro x _
    simp [decide_not]
  rw [hcongr]
  omega

theorem length_le_of_ids (b2 avail : List Item) (hB : (idsOf b2).Nodup)
    (hsub : ∀ c ∈ b2, c ∈ avail) : b2.length ≤ avail.length := by
  have hsp : List.Subperm (idsOf b2) (idsOf avail) :=
    List.subperm_of_subset hB fun x hx => by
      rcases List.mem_map.mp hx with ⟨b, hb, rfl⟩
      exact List.mem_map_of_mem Item.id (hsub b hb)
  have h := hsp.length_le
  simpa [idsOf] using h

theorem length_remaining (avail b2 : List Item) (hA : (idsOf avail).Nodup)
    (hB : (idsOf b2).Nodup) (hsub : ∀ c ∈ b2, c ∈ avail) :
    (avail.filter fun c => !(b2.any fun b => b.id == c.id)).length
      = avail.length - b2.length := by
  have hpt : ∀ c ∈ avail, (!(b2.any fun b => b.id == c.id))
      = decide (c.id ∉ idsOf b2) := by
    intro c _
    by_cases h : c.id ∈ idsOf b2
    · rcases List.mem_map.mp h with ⟨b, hb, hbid⟩
      have hany : (b2.any fun b2x => b2x.id == c.id) = true :=
        List.any_eq_true.mpr ⟨b, hb, by simp [hbid]⟩
      rw [hany]
      simp [h]
    · have hany : (b2.any fun b2x => b2x.id == c.id) = false := by
        rw [← Bool.not_eq_true]
        intro hany
        rcases List.any_eq_true.mp hany with ⟨b, hb, hbid⟩
        have hbid2 : b.id = c.id := by simpa using hbid
        exact h (hbid2 ▸ List.mem_map_of_mem Item.id hb)
      rw [hany]
      simp [h]
  rw [List.filter_congr hpt,
    length_filter_by_id avail fun x => decide (x ∉ idsOf b2)]
  have hid : ∀ x ∈ idsOf b2, x ∈ idsOf avail := fun x hx => by
    rcases List.mem_map.mp hx with ⟨b, hb, rfl⟩
    exact List.mem_map_of_mem Item.id (hsub b hb)
  have := length_filter_not_mem (idsOf avail) (idsOf b2) hA hB hid
  unfold idsOf at this ⊢
  rw [this]
  simp

theorem two_add_floor_le (rng : RandSrc) (m : ℕ) :
    2 + (Int.floor (rng.val m * 2)).toNat ≤ 3 := by
  have h2 : rng.val m * 2 < 2 :=
    mul_lt_of_lt_one_left (by norm_num) (rng.lt_one m)
  have h3 : Int.floor (rng.val m * 2) < 2 := by
    rw [Int.floor_lt]
    exact_mod_cast h2
  have h4 : (0 : ℤ) ≤ Int.floor (rng.val m * 2) :=
    Int.floor_nonneg.mpr (mul_nonneg (rng.nonneg m) (by norm_num))
  omega

theorem selectCore_spec (rng : RandSrc) (available : List Item)
    (size st hrc n3 : ℕ) (keys : List ℕ) (hN : (idsOf available).Nodup)
    (hgt : size < available.length) (hhrc : hrc ≤ size) :
    let b1 := highRatedPhase rng hrc ((sortByRatingDesc available).drop st) [] [] n3
    let b2 := groupPhase rng (groupByHue available) size keys b1.1 b1.2.1 b1.2.2
    let rem := available.filter fun c => !(b2.1.any fun b => b.id == c.id)
    let res := sortByHueAsc (fillPhase rng size rem.length rem b2.1 b2.2).1
    (idsOf res).Nodup ∧ (∀ c ∈ res, c ∈ available) ∧
      res.length = min size available.length := by
  intro b1 b2 rem res
  have hsortperm := sortByRatingDesc_perm available
  have hsortids : (idsOf (sortByRatingDesc available)).Nodup :=
    (hsortperm.map Item.id).nodup_iff.mpr hN
  have hdropids : (idsOf ((sortByRatingDesc available).drop st)).Nodup := by
    unfold idsOf
    rw [List.map_drop]
    unfold idsOf at hsortids
    exact (List.drop_sublist st _).nodup hsortids
  have hb1mem : ∀ c ∈ b1.1, c ∈ available := by
    intro c hc
    rcases highRatedPhase_mem rng hrc _ _ _ _ c hc with h | h
    · exact absurd h (List.not_mem_nil c)
    · exact hsortperm.subset ((List.drop_sublist st _).subset h)
  have hb1nd : (idsOf b1.1).Nodup :=
    highRatedPhase_nodup rng hrc _ [] [] n3 List.nodup_nil hdropids
      (fun c _ => List.not_mem_nil c.id)
  have hb1len : b1.1.length ≤ size :=
    le_trans (highRatedPhase_length rng hrc _ [] [] n3 (Nat.zero_le hrc)) hhrc
  have hb2mem : ∀ c ∈ b2.1, c ∈ available := by
    intro c hc
    rcases groupPhase_mem rng (groupByHue available) size available
      (fun k c2 hc2 => mem_groupByHue hc2) keys _ _ _ c hc with h | h
    · exact hb1mem c h
    · exact h
  have hb2nd : (idsOf b2.1).Nodup :=
    groupPhase_nodup _ _ _ keys _ _ _ hb1nd
  have hb2len : b2.1.length ≤ size :=
    groupPhase_length _ _ _ keys _ _ _ hb1len
  have hb2sub : b2.1.length ≤ available.length :=
    length_le_of_ids _ _ hb2nd hb2mem
  have hremlen : rem.length = available.length - b2.1.length :=
    length_remaining available b2.1 hN hb2nd hb2mem
  have hremnd : (idsOf rem).Nodup := by
    unfold idsOf
    unfold idsOf at hN
    exact ((List.filter_sublist available).map Item.id).nodup hN
  have hremdisj : ∀ c ∈ rem, c.id ∉ idsOf b2.1 := by
    intro c hc
    have h := (List.mem_filter.mp hc).2
    exact not_mem_ids_of_any_eq_false (by simpa using h)
  have hremmem : ∀ c ∈ rem, c ∈ available := fun c hc =>
    (List.mem_filter.mp hc).1
  have hfl := fillPhase_length rng size rem.length rem b2.1 b2.2 rfl hb2len
  have hfn := fillPhase_nodup rng size rem.length rem b2.1 b2.2
    hb2nd hremnd hremdisj
  have hfm := fillPhase_mem rng size rem.length rem b2.1 b2.2
  have hperm3 := sortByHueAsc_perm (fillPhase rng size rem.length rem b2.1 b2.2).1
  refine ⟨(hperm3.map Item.id).nodup_iff.mpr hfn, ?_, ?_⟩
  · intro c hc
    rcases hfm c (hperm3.subset hc) with h | h
    · exact hb2mem c h
    · exact hremmem c h
  · rw [hperm3.length_eq, hfl, hremlen]
    omega

/-- C7 amended: for duplicate-free active lists, `selectDiverseBatch`
returns pairwise-distinct items drawn from the given list with length
exactly `min(size, |activeItems|)` — provided the requested size is at
least 3 (or the pool already fits); for sizes 0–2 the high-rated phase
can push up to `2 + floor(rand·2)` colors before any size check, so the
result can exceed the requested size. -/
theorem claim7_selectDiverseBatch_spec (available : List Item) (size : ℕ)
    (rng : RandSrc) (n : ℕ) (keys : List ℕ) (hN : (idsOf available).Nodup)
    (hsize : 3 ≤ size ∨ available.length ≤ size) :
    (idsOf (selectDiverseBatch available size rng n keys)).Nodup ∧
    (∀ c ∈ selectDiverseBatch available size rng n keys, c ∈ available) ∧
    (selectDiverseBatch available size rng n keys).length
      = min size available.length := by
  unfold selectDiverseBatch
  split
  · rename_i hle
    exact ⟨hN, fun c hc => hc, by omega⟩
  · rename_i hgt'
    have hgt : size < available.length := by omega
    have hsz : 3 ≤ size := by
      rcases hsize with h | h
      · exact h
      · omega
    have hhrc := le_trans (two_add_floor_le rng
      (if rng.val n < 3 / 5 then n + 1 + 1 else n + 1)) hsz
    exact selectCore_spec rng available size _ _ _ keys hN hgt hhrc


/-- C7 counterexample: with requested size 0 and a single active item,
a random source whose first draw declines the top-skip and whose later
draws accept the 0.7 inclusion test makes the high-rated phase push one
color before any size check: the result has length 1, exceeding
`min(size, |activeItems|) = 0`. -/
theorem claim7_counterexample :
    (selectDiverseBatch [⟨0, 0, 1500, 0, 0, 0⟩] 0 rngSkip 0 []).length = 1 ∧
    min 0 ([(⟨0, 0, 1500, 0, 0, 0⟩ : Item)] : List Item).length = 0 := by
  constructor
  · norm_num [selectDiverseBatch, sortByRatingDesc, sortByHueAsc,
      highRatedPhase, groupPhase, fillPhase, rngSkip, getHueGroup]
  · rfl


/-- C7 witness: a singleton active list at the default-compatible size 3. -/
theorem claim7_selectDiverseBatch_spec_witness :
    (idsOf [(⟨0, 0, 1500, 0, 0, 0⟩ : Item)]).Nodup ∧
    ((3 : ℕ) ≤ 3 ∨ ([(⟨0, 0, 1500, 0, 0, 0⟩ : Item)] : List Item).length ≤ 3) ∧
    ((idsOf (selectDiverseBatch [⟨0, 0, 1500, 0, 0, 0⟩] 3 rngZero 0 [])).Nodup ∧
     (∀ c ∈ selectDiverseBatch [⟨0, 0, 1500, 0, 0, 0⟩] 3 rngZero 0 [],
        c ∈ [(⟨0, 0, 1500, 0, 0, 0⟩ : Item)]) ∧
     (selectDiverseBatch [⟨0, 0, 1500, 0, 0, 0⟩] 3 rngZero 0 []).length
        = min 3 ([(⟨0, 0, 1500, 0, 0, 0⟩ : Item)] : List Item).length) :=
  ⟨by decide, Or.inl (by decide),
   claim7_selectDiverseBatch_spec _ 3 rngZero 0 [] (by decide)
     (Or.inr (by decide))⟩

end ColorPicker
